import Mathlib

/-!
# Verification of the YouTube-metadata normalization core

Shallow embedding of `src/extractors/youtube_metadata.py` of
`google-ad-transparency-scraper`:

* `_extract_video_id_from_url` — extraction of a YouTube video id from a URL
  string, built on top of Python's `urllib.parse.urlparse` / `parse_qs`,
  which are embedded below (`urlparse`, `parse_qs`) following CPython's
  `urllib/parse.py`.
* `ensure_youtube_metadata` — the metadata reconciler over "variation"
  dictionaries.

Python's dynamically typed values are embedded as `PyVal`; a Python `dict`
with string keys is an association list `List (String × PyVal)` with the
usual uniqueness-of-keys reading (lookup takes the first matching key,
update replaces the first matching key in place or appends a fresh one at
the end, exactly the observable behaviour of a Python `dict`).
-/

/-- A Python value, as far as the normalization core can observe one:
`None`, `str`, `int`, `bool`, and string-keyed `dict`.  These are the value
shapes the reconciler's inputs can exhibit; arbitrary further object types
would behave like `int` here (truthy, not a `dict`, not a `str`). -/
inductive PyVal where
  | none : PyVal
  | str : String → PyVal
  | int : Int → PyVal
  | bool : Bool → PyVal
  | dict : List (String × PyVal) → PyVal

/-- Python truthiness (`bool(v)`): `None` is falsy, `""` is falsy, `0` is
falsy, `False` is falsy, an empty dict is falsy; everything else is truthy. -/
def PyVal.truthy : PyVal → Bool
  | .none => false
  | .str s => !(s = "")
  | .int n => !(n = 0)
  | .bool b => b
  | .dict d => !d.isEmpty

/-- Python's short-circuiting `a or b`: the left operand if it is truthy,
otherwise the right operand. -/
def pyOr (a b : PyVal) : PyVal :=
  if a.truthy then a else b

/-- Is the value a `str`? -/
def PyVal.isStr : PyVal → Bool
  | .str _ => true
  | _ => false

/-- Is the value a `dict` (Python's `isinstance(v, dict)`)? -/
def PyVal.isDict : PyVal → Bool
  | .dict _ => true
  | _ => false

/-- Is the value `None`? -/
def PyVal.isNone : PyVal → Bool
  | .none => true
  | _ => false

/-- `d.get(k)` on a Python dict: the value bound to `k`, or `None` when the
key is absent. -/
def dget : List (String × PyVal) → String → PyVal
  | [], _ => .none
  | (k', v) :: rest, k => if k' = k then v else dget rest k

/-- `d[k] = v` on a Python dict: replace the binding of `k` in place when the
key is present (keeping its position), otherwise append the new binding at
the end (Python dicts preserve insertion order). -/
def dset : List (String × PyVal) → String → PyVal → List (String × PyVal)
  | [], k, v => [(k, v)]
  | (k', v') :: rest, k, v =>
      if k' = k then (k, v) :: rest else (k', v') :: dset rest k v

/-! ## Embedding of `urllib.parse` (CPython `Lib/urllib/parse.py`)

Only what `_extract_video_id_from_url` consumes is embedded: `urlparse`
(via `urlsplit` and `_splitparams`) and `parse_qs` (via `parse_qsl` and
`unquote`).  Strings are worked on as `List Char`, which matches Python's
sequence-of-code-points view of `str`.

Two checks of CPython's `urlsplit` that only concern exotic hosts are not
modelled: `_checknetloc` (rejects a non-ASCII netloc whose NFKC
normalization introduces separator characters — a no-op on every ASCII
netloc) and the bracketed-host validation of newer CPython versions (only
reachable when the netloc contains both `[` and `]`).  The classic
unbalanced-bracket check ("Invalid IPv6 URL") is modelled. -/

/-- Python's `str.split(sep)` for a one-character separator `sep` (auxiliary
recursion carrying the current chunk, reversed). -/
def splitOnCharAux : List Char → Char → List Char → List (List Char)
  | [], _, acc => [acc.reverse]
  | x :: xs, c, acc =>
      if x = c then acc.reverse :: splitOnCharAux xs c []
      else splitOnCharAux xs c (x :: acc)

/-- Python's `str.split(sep)` for a one-character separator: splits at every
occurrence, keeping empty chunks (`"".split(c) = [""]`, like Python). -/
def splitOnChar (c : Char) (l : List Char) : List (List Char) :=
  splitOnCharAux l c []

/-- Python's `s.strip("/")`: drop all leading and trailing `/` characters. -/
def stripSlashes (l : List Char) : List Char :=
  ((l.dropWhile (· = '/')).reverse.dropWhile (· = '/')).reverse

/-- Python's `s.split(c, 1)` when `c` occurs: the part before the first
occurrence of `c` and the part after it; `none` when `c` does not occur. -/
def splitFirstAt (c : Char) (l : List Char) : Option (List Char × List Char) :=
  match l.findIdx? (· = c) with
  | some i => some (l.take i, l.drop (i + 1))
  | Option.none => Option.none

/-- Python's substring test `needle in hay` on strings. -/
def strIn (needle hay : String) : Bool :=
  decide (List.IsInfix needle.toList hay.toList)

/-- A character of Python's `_WHATWG_C0_CONTROL_OR_SPACE` (code point ≤ 0x20),
stripped from the start of a URL by `urlsplit`. -/
def isC0OrSpace (c : Char) : Bool := c.toNat ≤ 0x20

/-- A character of CPython's `scheme_chars` (ASCII letters and digits and
`+`, `-`, `.`). -/
def schemeCharOk (c : Char) : Bool :=
  c.isAlpha || c.isDigit || c = '+' || c = '-' || c = '.'

/-- ASCII hex digit (the keys of CPython's `_hextobyte`, both cases). -/
def isHexDigit (c : Char) : Bool :=
  c.isDigit || ('a' ≤ c && c ≤ 'f') || ('A' ≤ c && c ≤ 'F')

/-- Value of an ASCII hex digit. -/
def hexVal (c : Char) : Nat :=
  if c.isDigit then c.toNat - '0'.toNat
  else if 'a' ≤ c && c ≤ 'f' then c.toNat - 'a'.toNat + 10
  else c.toNat - 'A'.toNat + 10

/-- U+FFFD, produced by `bytes.decode('utf-8', errors='replace')` for each
maximal invalid subpart. -/
def replacementChar : Char := Char.ofNat 0xFFFD

/-- Lower bound on the second byte of a 3-byte UTF-8 sequence led by `b`. -/
def utf8SecondLo3 (b : Nat) : Nat := if b = 0xE0 then 0xA0 else 0x80

/-- Upper bound on the second byte of a 3-byte UTF-8 sequence led by `b`
(`0xED` caps it to exclude surrogates). -/
def utf8SecondHi3 (b : Nat) : Nat := if b = 0xED then 0x9F else 0xBF

/-- Lower bound on the second byte of a 4-byte UTF-8 sequence led by `b`. -/
def utf8SecondLo4 (b : Nat) : Nat := if b = 0xF0 then 0x90 else 0x80

/-- Upper bound on the second byte of a 4-byte UTF-8 sequence led by `b`
(`0xF4` caps it at U+10FFFF). -/
def utf8SecondHi4 (b : Nat) : Nat := if b = 0xF4 then 0x8F else 0xBF

/-- UTF-8 decoding with `errors='replace'`: each maximal invalid subpart
(stray or overlong lead byte, out-of-range continuation, or a sequence
truncated by end of input) becomes one U+FFFD, decoding then resumes at the
first offending byte — CPython's behaviour for `.decode('utf-8', 'replace')`. -/
def utf8DecodeReplace : List Nat → List Char
  | [] => []
  | b :: rest =>
    if b < 0x80 then Char.ofNat b :: utf8DecodeReplace rest
    else if 0xC2 ≤ b && b ≤ 0xDF then
      match h1 : rest with
      | b1 :: rest1 =>
        if 0x80 ≤ b1 && b1 ≤ 0xBF then
          Char.ofNat ((b - 0xC0) * 64 + (b1 - 0x80)) :: utf8DecodeReplace rest1
        else replacementChar :: utf8DecodeReplace rest
      | [] => [replacementChar]
    else if 0xE0 ≤ b && b ≤ 0xEF then
      match h1 : rest with
      | b1 :: rest1 =>
        if utf8SecondLo3 b ≤ b1 && b1 ≤ utf8SecondHi3 b then
          match h2 : rest1 with
          | b2 :: rest2 =>
            if 0x80 ≤ b2 && b2 ≤ 0xBF then
              Char.ofNat ((b - 0xE0) * 4096 + (b1 - 0x80) * 64 + (b2 - 0x80))
                :: utf8DecodeReplace rest2
            else replacementChar :: utf8DecodeReplace rest1
          | [] => [replacementChar]
        else replacementChar :: utf8DecodeReplace rest
      | [] => [replacementChar]
    else if 0xF0 ≤ b && b ≤ 0xF4 then
      match h1 : rest with
      | b1 :: rest1 =>
        if utf8SecondLo4 b ≤ b1 && b1 ≤ utf8SecondHi4 b then
          match h2 : rest1 with
          | b2 :: rest2 =>
            if 0x80 ≤ b2 && b2 ≤ 0xBF then
              match h3 : rest2 with
              | b3 :: rest3 =>
                if 0x80 ≤ b3 && b3 ≤ 0xBF then
                  Char.ofNat ((b - 0xF0) * 262144 + (b1 - 0x80) * 4096 +
                      (b2 - 0x80) * 64 + (b3 - 0x80)) :: utf8DecodeReplace rest3
                else replacementChar :: utf8DecodeReplace rest2
              | [] => [replacementChar]
            else replacementChar :: utf8DecodeReplace rest1
          | [] => [replacementChar]
        else replacementChar :: utf8DecodeReplace rest
      | [] => [replacementChar]
    else replacementChar :: utf8DecodeReplace rest
termination_by l => l.length
decreasing_by all_goals (subst_vars; simp only [List.length_cons]; omega)

/-- Core loop of CPython's `unquote`: maximal runs of valid `%XX` escapes are
accumulated as bytes and decoded together with `errors='replace'`; an invalid
escape leaves its `%` literal.  (CPython decodes each maximal ASCII chunk's
bytes in one call; splitting at literal characters is observationally equal
because a literal ASCII byte can neither be a continuation byte nor expect
one, and literal non-ASCII characters sit outside the ASCII chunks.) -/
def unquoteAux : List Char → List Nat → List Char
  | [], acc => utf8DecodeReplace acc.reverse
  | '%' :: c1 :: c2 :: rest, acc =>
    if isHexDigit c1 && isHexDigit c2 then
      unquoteAux rest ((hexVal c1 * 16 + hexVal c2) :: acc)
    else
      utf8DecodeReplace acc.reverse ++ '%' :: unquoteAux (c1 :: c2 :: rest) []
  | c :: rest, acc => utf8DecodeReplace acc.reverse ++ c :: unquoteAux rest []
termination_by l _ => l.length
decreasing_by all_goals (simp only [List.length_cons]; omega)

/-- CPython's `urllib.parse.unquote` with the default UTF-8/`replace`
arguments; returns the input unchanged when it contains no `%`. -/
def unquoteChars (l : List Char) : List Char :=
  if '%' ∈ l then unquoteAux l [] else l

/-- The `.replace('+', ' ')` applied by `parse_qsl` to names and values. -/
def plusToSpace (l : List Char) : List Char :=
  l.map (fun c => if c = '+' then ' ' else c)

/-- CPython's `parse_qsl(qs)` with default arguments (`keep_blank_values`
false, separator `&`): splits on `&`, skips empty chunks, skips chunks with
no `=`, skips pairs whose value is empty, and `+`/percent-decodes names and
values. -/
def parse_qsl (qs : List Char) : List (String × String) :=
  let query_args := if qs.isEmpty then [] else splitOnChar '&' qs
  query_args.foldl
    (fun r name_value =>
      if name_value.isEmpty then r
      else
        match splitFirstAt '=' name_value with
        | Option.none => r
        | some (name, value) =>
          if value.isEmpty then r
          else
            r ++ [(String.mk (unquoteChars (plusToSpace name)),
                   String.mk (unquoteChars (plusToSpace value)))])
    []

/-- Appending one `(name, value)` pair to `parse_qs`'s result dict: extend
the value list of an existing key in place, else append a fresh key. -/
def addToMultiDict : List (String × List String) → String → String →
    List (String × List String)
  | [], k, v => [(k, [v])]
  | (k', vs) :: rest, k, v =>
      if k' = k then (k', vs ++ [v]) :: rest
      else (k', vs) :: addToMultiDict rest k v

/-- CPython's `parse_qs(qs)` with default arguments: group the `parse_qsl`
pairs by name, preserving order of first appearance. -/
def parse_qs (qs : List Char) : List (String × List String) :=
  (parse_qsl qs).foldl (fun d nv => addToMultiDict d nv.1 nv.2) []

/-- The named fields of CPython's `SplitResult` that `urlparse` builds on. -/
structure SplitResult where
  scheme : String
  netloc : String
  path : String
  query : String
  fragment : String

/-- The named fields of CPython's `ParseResult` (a `SplitResult` with the
path's trailing `;parameters` split off). -/
structure ParseResult where
  scheme : String
  netloc : String
  path : String
  params : String
  query : String
  fragment : String

/-- CPython's `urlsplit(url)` with default arguments:
1. strip leading C0-control/space characters, remove every tab, CR and LF;
2. split off a syntactically valid scheme (lowercased);
3. when the remainder starts with `//`, take the netloc up to the next
   `/`, `?` or `#`, raising `ValueError("Invalid IPv6 URL")` on a netloc
   with unbalanced square brackets;
4. split off the fragment at the first `#`, then the query at the first `?`. -/
def urlsplit (url : String) : Except String SplitResult :=
  let u0 := (url.toList.dropWhile isC0OrSpace).filter
      (fun c => !(c = '\t' || c = '\r' || c = '\n'))
  let su :=
    match u0.findIdx? (· = ':') with
    | some i =>
        if 0 < i && (u0.headD ' ').isAlpha && (u0.take i).all schemeCharOk then
          ((u0.take i).map Char.toLower, u0.drop (i + 1))
        else ([], u0)
    | Option.none => ([], u0)
  let scheme := su.1
  let u1 := su.2
  match u1 with
  | '/' :: '/' :: rest =>
      let i :=
        match rest.findIdx? (fun c => c = '/' || c = '?' || c = '#') with
        | some j => j
        | Option.none => rest.length
      let netloc := rest.take i
      let u2 := rest.drop i
      if (netloc.contains '[' && !netloc.contains ']') ||
         (netloc.contains ']' && !netloc.contains '[') then
        .error "Invalid IPv6 URL"
      else
        let fu :=
          match splitFirstAt '#' u2 with
          | some (a, b) => (a, b)
          | Option.none => (u2, [])
        let qu :=
          match splitFirstAt '?' fu.1 with
          | some (a, b) => (a, b)
          | Option.none => (fu.1, [])
        .ok ⟨String.mk scheme, String.mk netloc, String.mk qu.1,
             String.mk qu.2, String.mk fu.2⟩
  | _ =>
      let fu :=
        match splitFirstAt '#' u1 with
        | some (a, b) => (a, b)
        | Option.none => (u1, [])
      let qu :=
        match splitFirstAt '?' fu.1 with
        | some (a, b) => (a, b)
        | Option.none => (fu.1, [])
      .ok ⟨String.mk scheme, "", String.mk qu.1, String.mk qu.2,
           String.mk fu.2⟩

/-- CPython's `uses_params` scheme list. -/
def uses_params : List String :=
  ["", "ftp", "hdl", "prospero", "http", "imap", "https", "shttp", "rtsp",
   "rtspu", "sip", "sips", "mms", "sftp", "tel"]

/-- CPython's `_splitparams(url)`: split the `;parameters` off the last path
segment (only called when `;` occurs in the path). -/
def _splitparams (l : List Char) : List Char × List Char :=
  let i? :=
    if l.contains '/' then
      let r :=
        match l.reverse.findIdx? (· = '/') with
        | some j => l.length - 1 - j
        | Option.none => 0
      match (l.drop r).findIdx? (· = ';') with
      | some off => some (r + off)
      | Option.none => Option.none
    else l.findIdx? (· = ';')
  match i? with
  | some i => (l.take i, l.drop (i + 1))
  | Option.none => (l, [])

/-- CPython's `urlparse(url)`: `urlsplit`, then split the path's parameters
when the scheme uses them. -/
def urlparse (url : String) : Except String ParseResult :=
  match urlsplit url with
  | .error e => .error e
  | .ok s =>
      let pp :=
        if uses_params.contains s.scheme && s.path.toList.contains ';' then
          _splitparams s.path.toList
        else (s.path.toList, [])
      .ok ⟨s.scheme, s.netloc, String.mk pp.1, String.mk pp.2, s.query,
           s.fragment⟩

/-! ## The extractor (`_extract_video_id_from_url`) -/

/-- `x or None` for a path-segment string `x` (Python: the segment when it is
non-empty, `None` otherwise). -/
def segOrNone (seg : List Char) : Option String :=
  if seg.isEmpty then Option.none else some (String.mk seg)

/-- `qs.get("v", [None])[0]`: the first value listed under `"v"` by
`parse_qs`, or Python's `None` when the key is absent.  (`parse_qs` never
produces an empty value list, so the `headD` default is unreachable.) -/
def vidOf (qs : List (String × List String)) : Option String :=
  match qs.find? (fun p => p.1 == "v") with
  | some p => some (p.2.headD "")
  | Option.none => Option.none

/-- The body of `_extract_video_id_from_url` after a successful `urlparse`,
lines 25–42 of `youtube_metadata.py`.  The `youtube.com` block is encoded
with an explicit early-return value (`some r` = `return r` was executed,
`none` = control fell through to the `youtu.be` check, which can only happen
when the netloc does not contain `"youtube.com"`, since `str.split` never
returns an empty list). -/
def extractFromParsed (parsed : ParseResult) : Option String :=
  let fromYtCom : Option (Option String) :=
    if strIn "youtube.com" parsed.netloc then
      let qs := parse_qs parsed.query.toList
      let vid := vidOf qs
      match vid with
      | some v =>
          if !(v = "") then some (some v)
          else
            match splitOnChar '/' (stripSlashes parsed.path.toList) with
            | [] => Option.none
            | s :: rest => some (segOrNone ((s :: rest).getLastD []))
      | Option.none =>
          match splitOnChar '/' (stripSlashes parsed.path.toList) with
          | [] => Option.none
          | s :: rest => some (segOrNone ((s :: rest).getLastD []))
    else Option.none
  match fromYtCom with
  | some r => r
  | Option.none =>
      if strIn "youtu.be" parsed.netloc then
        match splitOnChar '/' (stripSlashes parsed.path.toList) with
        | [] => Option.none
        | s :: _ => segOrNone s
      else Option.none

/-- `_extract_video_id_from_url(url)` for a `str` argument, lines 9–42 of
`youtube_metadata.py`: `None` on an empty string (`if not url`), `None` when
`urlparse` raises (`except Exception`), otherwise the branch logic on the
parsed result. -/
def _extract_video_id_from_url (url : String) : Option String :=
  if url = "" then Option.none
  else
    match urlparse url with
    | .error _ => Option.none
    | .ok parsed => extractFromParsed parsed

/-- `_extract_video_id_from_url` applied to an arbitrary Python value, as the
reconciler does: a falsy argument returns `None` via `if not url`; a truthy
non-`str` argument makes `urlparse` raise a `TypeError`/`AttributeError`,
which the `except Exception` handler also folds into `None`. -/
def extractVal : PyVal → Option String
  | .str s => _extract_video_id_from_url s
  | _ => Option.none

/-! ## The reconciler (`ensure_youtube_metadata`) -/

/-- A Python `None`-or-`str` result as a `PyVal`. -/
def optToVal : Option String → PyVal
  | some s => .str s
  | Option.none => .none

/-- `ensure_youtube_metadata`, lines 44–83 of `youtube_metadata.py`,
parametrized by the extractor so that independence from the extractor can be
stated.  `dict(variation)` (the shallow copy) is the identity in this
functional model; the final `variation["youtubeMetadata"] = {...}` is `dset`
on the copy. -/
def ensure_youtube_metadataGen (ext : PyVal → Option String)
    (variation : List (String × PyVal)) : List (String × PyVal) :=
  match dget variation "youtubeMetadata" with
  | .dict existing_meta =>
      let youtube_url := pyOr (pyOr (dget existing_meta "youtubeUrl")
        (dget existing_meta "url")) (.str "")
      let cta_url := pyOr (pyOr (dget existing_meta "ctaUrl")
        (dget existing_meta "cta")) (.str "")
      let ad_id := pyOr (pyOr (dget existing_meta "adId")
        (optToVal (ext youtube_url))) (.str "")
      dset variation "youtubeMetadata"
        (.dict [("adId", ad_id), ("youtubeUrl", youtube_url),
                ("ctaUrl", cta_url)])
  | _ =>
      let youtube_url := pyOr (pyOr (pyOr (dget variation "youtubeUrl")
        (dget variation "videoUrl")) (dget variation "url")) (.str "")
      let cta_url := pyOr (pyOr (dget variation "ctaUrl")
        (dget variation "cta")) (.str "")
      let ad_id := pyOr (optToVal (ext youtube_url)) (.str "")
      dset variation "youtubeMetadata"
        (.dict [("adId", ad_id), ("youtubeUrl", youtube_url),
                ("ctaUrl", cta_url)])

/-- `ensure_youtube_metadata` itself: the reconciler with the real extractor
plugged in. -/
def ensure_youtube_metadata (variation : List (String × PyVal)) :
    List (String × PyVal) :=
  ensure_youtube_metadataGen extractVal variation

/-- The `youtubeMetadata` value of a reconciled variation. -/
def reconciledMeta (variation : List (String × PyVal)) : PyVal :=
  dget (ensure_youtube_metadata variation) "youtubeMetadata"

/-- Field access inside a metadata value (`None` when it is not a dict). -/
def metaEntry (v : PyVal) (k : String) : PyVal :=
  match v with
  | .dict m => dget m k
  | _ => .none

/-! ## Observers for the claims -/

/-- Exactly the three keys `adId`, `youtubeUrl`, `ctaUrl`, in insertion
order, each bound to a value that is not `None`. -/
def wellShapedMeta : PyVal → Bool
  | .dict [("adId", a), ("youtubeUrl", u), ("ctaUrl", c)] =>
      !a.isNone && !u.isNone && !c.isNone
  | _ => false

/-- Every value of the metadata dict is a `str`. -/
def allStrMeta : PyVal → Bool
  | .dict m => m.all (fun p => p.2.isStr)
  | _ => false

/-- The value is a string or falsy (so a fallback chain ending in `""`
turns it into a string). -/
def strOrFalsy (v : PyVal) : Bool := v.isStr || !v.truthy

/-- Every input field the reconciler consults on this variation is a string
or falsy (absent keys read as `None`, which is falsy). -/
def consultedStringish (d : List (String × PyVal)) : Bool :=
  match dget d "youtubeMetadata" with
  | .dict m =>
      strOrFalsy (dget m "youtubeUrl") && strOrFalsy (dget m "url") &&
      strOrFalsy (dget m "ctaUrl") && strOrFalsy (dget m "cta") &&
      strOrFalsy (dget m "adId")
  | _ =>
      strOrFalsy (dget d "youtubeUrl") && strOrFalsy (dget d "videoUrl") &&
      strOrFalsy (dget d "url") && strOrFalsy (dget d "ctaUrl") &&
      strOrFalsy (dget d "cta")

/-- `parse_qs(query).get("v", [None])[0]` as the spec reads it: the first
value of the `v` parameter, absent when the query has none. -/
def firstVParam (query : String) : Option String :=
  vidOf (parse_qs query.toList)

/-- The segment sequence of the claims: strip leading/trailing slashes from
the path, then split on `/`. -/
def pathSegmentsPy (path : String) : List (List Char) :=
  splitOnChar '/' (stripSlashes path.toList)

/-! ## Library lemmas about the embedded operations -/

theorem dget_cons (k' k : String) (v : PyVal) (rest : List (String × PyVal)) :
    dget ((k', v) :: rest) k = if k' = k then v else dget rest k := rfl

/-- Looking up the key just set yields the value just set. -/
theorem dget_dset_self (d : List (String × PyVal)) (k : String) (v : PyVal) :
    dget (dset d k v) k = v := by
  induction d with
  | nil => simp [dget, dset]
  | cons hd tl ih =>
      obtain ⟨k', v'⟩ := hd
      by_cases h : k' = k
      · simp [dget, dset, h]
      · simp [dget, dset, h, ih]

/-- Looking up any other key is unaffected by `dset`. -/
theorem dget_dset_other (d : List (String × PyVal)) (k k' : String) (v : PyVal)
    (h : k ≠ k') : dget (dset d k v) k' = dget d k' := by
  induction d with
  | nil => simp [dget, dset, h]
  | cons hd tl ih =>
      obtain ⟨k₀, v₀⟩ := hd
      by_cases h0 : k₀ = k
      · subst h0
        simp [dget, dset, h]
      · simp [dget, dset, h0, ih]

/-- Setting the same key to the same value twice is the same as setting it
once. -/
theorem dset_dset_same (d : List (String × PyVal)) (k : String) (v : PyVal) :
    dset (dset d k v) k v = dset d k v := by
  induction d with
  | nil => simp [dset]
  | cons hd tl ih =>
      obtain ⟨k₀, v₀⟩ := hd
      by_cases h0 : k₀ = k
      · simp [dset, h0]
      · simp [dset, h0, ih]

theorem pyOr_truthy {a : PyVal} (b : PyVal) (h : a.truthy = true) :
    pyOr a b = a := by simp [pyOr, h]

theorem pyOr_falsy {a : PyVal} (b : PyVal) (h : a.truthy = false) :
    pyOr a b = b := by simp [pyOr, h]

/-- If `a or b` is falsy, both operands are falsy. -/
theorem pyOr_falsy_parts {a b : PyVal} (h : (pyOr a b).truthy = false) :
    a.truthy = false ∧ b.truthy = false := by
  by_cases ha : a.truthy
  · rw [pyOr_truthy b ha] at h
    exact absurd h (by simp [ha])
  · simp only [Bool.not_eq_true] at ha
    rw [pyOr_falsy b ha] at h
    exact ⟨ha, h⟩

/-- A chain ending in `or ""` yields its truthy left part or `""`. -/
theorem pyOr_default_cases (x : PyVal) :
    (x.truthy = true ∧ pyOr x (.str "") = x) ∨
    (x.truthy = false ∧ pyOr x (.str "") = .str "") := by
  by_cases hx : x.truthy
  · exact Or.inl ⟨hx, pyOr_truthy _ hx⟩
  · simp only [Bool.not_eq_true] at hx
    exact Or.inr ⟨hx, pyOr_falsy _ hx⟩

/-- A chain ending in `or ""` never yields `None`. -/
theorem pyOr_default_not_none (x : PyVal) : (pyOr x (.str "")).isNone = false := by
  rcases pyOr_default_cases x with ⟨hx, he⟩ | ⟨hx, he⟩
  · rw [he]
    cases x with
    | none => simp [PyVal.truthy] at hx
    | str s => rfl
    | int n => rfl
    | bool b => rfl
    | dict m => rfl
  · rw [he]
    rfl

/-- Re-normalizing a normalized URL/CTA field is the identity:
`(x or "") or None or "" = x or ""` (the second pass reads the already
resolved field, misses the legacy alias, and falls back to `""`). -/
theorem pyOr_default_second_pass (x : PyVal) :
    pyOr (pyOr (pyOr x (.str "")) .none) (.str "") = pyOr x (.str "") := by
  rcases pyOr_default_cases x with ⟨hx, he⟩ | ⟨hx, he⟩ <;> rw [he]
  · rw [pyOr_truthy _ hx, pyOr_truthy _ hx]
  · rfl

/-- Re-deriving the `adId` of an already reconciled variation changes
nothing: with `w` the first-pass `adId` chain before the `""` default and
`ev` the extractor's value (which is unchanged on the second pass because
the resolved URL is unchanged), `((w or "") or ev) or "" = w or ""`,
provided `ev` is falsy whenever `w` is. -/
theorem pyOr_adid_second_pass (w ev : PyVal)
    (hwe : w.truthy = false → ev.truthy = false) :
    pyOr (pyOr (pyOr w (.str "")) ev) (.str "") = pyOr w (.str "") := by
  rcases pyOr_default_cases w with ⟨hw, he⟩ | ⟨hw, he⟩ <;> rw [he]
  · rw [pyOr_truthy _ hw, pyOr_truthy _ hw]
  · have hempty : (PyVal.str "").truthy = false := rfl
    rw [pyOr_falsy ev hempty, pyOr_falsy _ (hwe hw)]

theorem strOrFalsy_pyOr {x y : PyVal} (hx : strOrFalsy x = true)
    (hy : strOrFalsy y = true) : strOrFalsy (pyOr x y) = true := by
  by_cases ht : x.truthy
  · rw [pyOr_truthy _ ht]
    exact hx
  · simp only [Bool.not_eq_true] at ht
    rw [pyOr_falsy _ ht]
    exact hy

/-- A fallback chain of string-or-falsy values ending in `or ""` produces a
string. -/
theorem pyOr_default_isStr {x : PyVal} (hx : strOrFalsy x = true) :
    (pyOr x (.str "")).isStr = true := by
  by_cases ht : x.truthy
  · rw [pyOr_truthy _ ht]
    simp only [strOrFalsy, ht, Bool.not_true, Bool.or_false] at hx
    exact hx
  · simp only [Bool.not_eq_true] at ht
    rw [pyOr_falsy _ ht]
    rfl

theorem strOrFalsy_optToVal (o : Option String) :
    strOrFalsy (optToVal o) = true := by
  cases o <;> rfl

/-- Case A of the reconciler (the `youtubeMetadata` key holds a dict):
the result is the input with `youtubeMetadata` replaced by the three-field
record resolved from the nested dict alone. -/
theorem ensureGen_caseA (ext : PyVal → Option String)
    (d m : List (String × PyVal))
    (hm : dget d "youtubeMetadata" = PyVal.dict m) :
    ensure_youtube_metadataGen ext d =
      dset d "youtubeMetadata" (PyVal.dict
        [("adId", pyOr (pyOr (dget m "adId")
            (optToVal (ext (pyOr (pyOr (dget m "youtubeUrl") (dget m "url"))
              (.str ""))))) (.str "")),
         ("youtubeUrl", pyOr (pyOr (dget m "youtubeUrl") (dget m "url")) (.str "")),
         ("ctaUrl", pyOr (pyOr (dget m "ctaUrl") (dget m "cta")) (.str ""))]) := by
  unfold ensure_youtube_metadataGen
  rw [hm]

/-- Case B of the reconciler (no dict under `youtubeMetadata`): the result is
the input with `youtubeMetadata` replaced by the record resolved from the
top-level alias chains. -/
theorem ensureGen_caseB (ext : PyVal → Option String)
    (d : List (String × PyVal))
    (hm : (dget d "youtubeMetadata").isDict = false) :
    ensure_youtube_metadataGen ext d =
      dset d "youtubeMetadata" (PyVal.dict
        [("adId", pyOr (optToVal (ext (pyOr (pyOr (pyOr (dget d "youtubeUrl")
            (dget d "videoUrl")) (dget d "url")) (.str "")))) (.str "")),
         ("youtubeUrl", pyOr (pyOr (pyOr (dget d "youtubeUrl")
            (dget d "videoUrl")) (dget d "url")) (.str "")),
         ("ctaUrl", pyOr (pyOr (dget d "ctaUrl") (dget d "cta")) (.str ""))]) := by
  cases h : dget d "youtubeMetadata" with
  | dict m => rw [h] at hm; simp [PyVal.isDict] at hm
  | none => unfold ensure_youtube_metadataGen; rw [h]
  | str s => unfold ensure_youtube_metadataGen; rw [h]
  | int n => unfold ensure_youtube_metadataGen; rw [h]
  | bool b => unfold ensure_youtube_metadataGen; rw [h]

/-! ## Lemmas about path splitting -/

/-- `str.split` never returns an empty list (Python: `"".split(c) == [""]`). -/
theorem splitOnCharAux_ne_nil (l : List Char) (c : Char) (acc : List Char) :
    splitOnCharAux l c acc ≠ [] := by
  induction l generalizing acc with
  | nil => simp [splitOnCharAux]
  | cons x xs ih =>
      by_cases hx : x = c
      · simp [splitOnCharAux, hx]
      · simp only [splitOnCharAux, if_neg hx]
        exact ih _

/-- The first chunk of a split is the pending accumulator followed by the
characters before the first separator. -/
theorem head?_splitOnCharAux (l : List Char) (c : Char) (acc : List Char) :
    (splitOnCharAux l c acc).head? =
      some (acc.reverse ++ l.takeWhile (fun x => !(x = c))) := by
  induction l generalizing acc with
  | nil => simp [splitOnCharAux]
  | cons x xs ih =>
      by_cases hx : x = c
      · subst hx
        simp [splitOnCharAux, List.takeWhile_cons]
      · simp only [splitOnCharAux, if_neg hx, ih (x :: acc),
          List.takeWhile_cons]
        simp [hx]

/-- When the input is non-empty and does not end in the separator, the last
chunk of the split is non-empty. -/
theorem getLastD_splitOnCharAux_ne_nil (l : List Char) (c : Char)
    (acc : List Char) (hl : l ≠ []) (hlast : l.getLast? ≠ some c) :
    (splitOnCharAux l c acc).getLastD [] ≠ [] := by
  induction l generalizing acc with
  | nil => exact absurd rfl hl
  | cons x xs ih =>
      by_cases hxs : xs = []
      · subst hxs
        have hx : ¬(x = c) := by
          intro h
          exact hlast (by simp [h])
        simp [splitOnCharAux, hx]
      · have hlast' : xs.getLast? ≠ some c := by
          obtain ⟨y, ys, hyy⟩ := List.exists_cons_of_ne_nil hxs
          rw [hyy] at hlast ⊢
          rwa [List.getLast?_cons_cons] at hlast
        by_cases hx : x = c
        · simp only [splitOnCharAux, if_pos hx]
          rw [List.getLastD_cons, List.getLastD_eq_getLast?]
          have hne := ih [] hxs hlast'
          rw [List.getLastD_eq_getLast?] at hne
          cases hgl : (splitOnCharAux xs c []).getLast? with
          | none => rw [hgl] at hne; exact absurd rfl hne
          | some v => rw [hgl] at hne; exact hne
        · simp only [splitOnCharAux, if_neg hx]
          exact ih (x :: acc) hxs hlast'

/-- The head of a `dropWhile` does not satisfy the predicate. -/
theorem head?_dropWhile_ne (p : Char → Bool) (l : List Char) (a : Char)
    (h : (l.dropWhile p).head? = some a) : p a = false := by
  induction l with
  | nil => simp at h
  | cons x xs ih =>
      rw [List.dropWhile_cons] at h
      by_cases hx : p x
      · rw [if_pos hx] at h
        exact ih h
      · rw [if_neg hx] at h
        simp only [List.head?_cons, Option.some.injEq] at h
        subst h
        simpa using hx

/-- `dropWhile` only removes a prefix, so a non-empty result keeps the last
element. -/
theorem getLast?_dropWhile_of_ne_nil (p : Char → Bool) (l : List Char)
    (h : l.dropWhile p ≠ []) : (l.dropWhile p).getLast? = l.getLast? := by
  induction l with
  | nil => simp at h
  | cons x xs ih =>
      rw [List.dropWhile_cons] at h ⊢
      by_cases hx : p x
      · rw [if_pos hx] at h ⊢
        rw [ih h]
        have hxs : xs ≠ [] := by
          intro he
          subst he
          simp [List.dropWhile] at h
        obtain ⟨y, ys, hyy⟩ := List.exists_cons_of_ne_nil hxs
        rw [hyy, List.getLast?_cons_cons]
      · rw [if_neg hx]

/-- `s.strip("/")` never ends in a slash. -/
theorem stripSlashes_getLast_ne (l : List Char) (a : Char)
    (h : (stripSlashes l).getLast? = some a) : a ≠ '/' := by
  unfold stripSlashes at h
  rw [List.getLast?_reverse] at h
  have := head?_dropWhile_ne (fun c => c = '/') _ a h
  simpa using this

/-- `s.strip("/")` never starts with a slash. -/
theorem stripSlashes_head_ne (l : List Char) (a : Char)
    (h : (stripSlashes l).head? = some a) : a ≠ '/' := by
  unfold stripSlashes at h
  rw [List.head?_reverse] at h
  have hne : ((l.dropWhile (fun c => c = '/')).reverse.dropWhile
      (fun c => c = '/')) ≠ [] := by
    intro he
    rw [he] at h
    simp at h
  rw [getLast?_dropWhile_of_ne_nil _ _ hne, List.getLast?_reverse] at h
  have := head?_dropWhile_ne (fun c => c = '/') l a h
  simpa using this

/-- Unfolding the extractor on a non-empty string with a successful parse. -/
theorem extract_eq_parsed (s : String) (p : ParseResult)
    (hs : ¬(s = "")) (hp : urlparse s = Except.ok p) :
    _extract_video_id_from_url s = extractFromParsed p := by
  unfold _extract_video_id_from_url
  rw [if_neg hs, hp]

/-! ## Claims -/

/-- C2: for every input string (including the empty string and strings that
are not URLs) the extractor terminates without raising: it is a total
function into `Option String`.  A falsy (empty or null-like) input yields
absent via `if not url`, and a `urlparse` failure (modelled as an
`Except.error`, caught by the source's `except Exception`) also yields
absent rather than an error. -/
theorem extract_video_id_total :
    (∀ v : PyVal, v.truthy = false → extractVal v = Option.none)
  ∧ (∀ s : String, s = "" → _extract_video_id_from_url s = Option.none)
  ∧ (∀ (s e : String), urlparse s = Except.error e →
      _extract_video_id_from_url s = Option.none) := by
  refine ⟨?_, ?_, ?_⟩
  · intro v hv
    cases v with
    | str s =>
        have hs : s = "" := by
          simpa [PyVal.truthy] using hv
        subst hs
        rfl
    | none => rfl
    | int n => rfl
    | bool b => rfl
    | dict m => rfl
  · intro s hs
    subst hs
    rfl
  · intro s e he
    by_cases hs : s = ""
    · subst hs
      rfl
    · unfold _extract_video_id_from_url
      rw [if_neg hs, he]

/-- Witness for C2 at concrete inputs: Python `None`, the empty string, and
a URL on which `urlparse` raises `ValueError("Invalid IPv6 URL")`. -/
theorem extract_video_id_total_witness :
    extractVal PyVal.none = Option.none
  ∧ _extract_video_id_from_url "" = Option.none
  ∧ _extract_video_id_from_url "http://[" = Option.none :=
  ⟨extract_video_id_total.1 PyVal.none (by decide),
   extract_video_id_total.2.1 "" rfl,
   extract_video_id_total.2.2 "http://[" "Invalid IPv6 URL" rfl⟩

/-- C3: for every URL whose parsed host contains the substring
`"youtube.com"`: a non-empty `v` query parameter wins and its first value is
returned; otherwise the path is stripped of leading/trailing slashes and
split on `/`, the last segment is returned when the stripped path is
non-empty, and the result is absent when the path is empty. -/
theorem youtube_com_extraction (s : String) (p : ParseResult)
    (hp : urlparse s = Except.ok p)
    (hyt : strIn "youtube.com" p.netloc = true) :
    (∀ v : String, firstVParam p.query = some v → ¬(v = "") →
        _extract_video_id_from_url s = some v)
  ∧ ((firstVParam p.query).getD "" = "" →
      stripSlashes p.path.toList ≠ [] →
        _extract_video_id_from_url s =
          some (String.mk ((pathSegmentsPy p.path).getLastD [])))
  ∧ ((firstVParam p.query).getD "" = "" → p.path = "" →
        _extract_video_id_from_url s = Option.none) := by
  have hs : ¬(s = "") := by
    intro h
    subst h
    rw [show urlparse "" = Except.ok
        (⟨"", "", "", "", "", ""⟩ : ParseResult) from rfl] at hp
    injection hp with hp'
    rw [← hp'] at hyt
    exact absurd hyt (by decide)
  have hex := extract_eq_parsed s p hs hp
  have hpathcase : (firstVParam p.query).getD "" = "" →
      stripSlashes p.path.toList ≠ [] →
        _extract_video_id_from_url s =
          some (String.mk ((pathSegmentsPy p.path).getLastD [])) := by
    intro hv0 hstr
    rw [hex]
    have hlast : (stripSlashes p.path.toList).getLast? ≠ some '/' := by
      intro h
      exact stripSlashes_getLast_ne _ _ h rfl
    have hseg := getLastD_splitOnCharAux_ne_nil
      (stripSlashes p.path.toList) '/' [] hstr hlast
    obtain ⟨s0, rest, hsr⟩ := List.exists_cons_of_ne_nil
      (splitOnCharAux_ne_nil (stripSlashes p.path.toList) '/' [])
    have hsr' : splitOnChar '/' (stripSlashes p.path.toList) = s0 :: rest := hsr
    rw [hsr] at hseg
    cases hq : firstVParam p.query with
    | none =>
        have hq' : vidOf (parse_qs p.query.toList) = Option.none := hq
        unfold extractFromParsed
        simp only [hyt, if_true, hq', hsr', pathSegmentsPy]
        rw [List.getLastD_eq_getLast?] at hseg
        simp [segOrNone, hseg]
    | some v =>
        rw [hq] at hv0
        simp only [Option.getD_some] at hv0
        subst hv0
        have hq' : vidOf (parse_qs p.query.toList) = some "" := hq
        unfold extractFromParsed
        simp only [hyt, if_true, hq', hsr', pathSegmentsPy]
        rw [List.getLastD_eq_getLast?] at hseg
        simp [segOrNone, hseg]
  refine ⟨?_, hpathcase, ?_⟩
  · intro v hv hvne
    rw [hex]
    have hq' : vidOf (parse_qs p.query.toList) = some v := hv
    unfold extractFromParsed
    simp only [hyt, if_true, hq']
    simp [hvne]
  · intro hv0 hpath
    rw [hex]
    cases hq : firstVParam p.query with
    | none =>
        have hq' : vidOf (parse_qs p.query.toList) = Option.none := hq
        unfold extractFromParsed
        simp only [hyt, if_true, hq', hpath]
        rfl
    | some v =>
        rw [hq] at hv0
        simp only [Option.getD_some] at hv0
        subst hv0
        have hq' : vidOf (parse_qs p.query.toList) = some "" := hq
        unfold extractFromParsed
        simp only [hyt, if_true, hq', hpath]
        rfl

/-- Witness for C3 at the claim's concrete input: the path-fallback branch
on `https://www.youtube.com/embed/qqq111` yields `qqq111`. -/
theorem youtube_com_extraction_witness :
    _extract_video_id_from_url "https://www.youtube.com/embed/qqq111" =
      some "qqq111" := by
  have h := (youtube_com_extraction "https://www.youtube.com/embed/qqq111"
      ⟨"https", "www.youtube.com", "/embed/qqq111", "", "", ""⟩ rfl
      (by decide)).2.1 rfl (by decide)
  exact h

/-- C4: for every URL whose parsed host does not contain `"youtube.com"` but
does contain `"youtu.be"`, the path is stripped of leading/trailing slashes
and split on `/`; the first segment is returned when it exists and is
non-empty (equivalently, when the stripped path is non-empty — the first
segment of a stripped non-empty path is never empty), absent otherwise. -/
theorem youtu_be_extraction (s : String) (p : ParseResult)
    (hp : urlparse s = Except.ok p)
    (hyc : strIn "youtube.com" p.netloc = false)
    (hbe : strIn "youtu.be" p.netloc = true) :
    (stripSlashes p.path.toList ≠ [] →
        _extract_video_id_from_url s =
          some (String.mk ((pathSegmentsPy p.path).headD [])))
  ∧ (stripSlashes p.path.toList = [] →
        _extract_video_id_from_url s = Option.none) := by
  have hs : ¬(s = "") := by
    intro h
    subst h
    rw [show urlparse "" = Except.ok
        (⟨"", "", "", "", "", ""⟩ : ParseResult) from rfl] at hp
    injection hp with hp'
    rw [← hp'] at hbe
    exact absurd hbe (by decide)
  have hex := extract_eq_parsed s p hs hp
  constructor
  · intro hstr
    rw [hex]
    obtain ⟨s0, rest, hsr⟩ := List.exists_cons_of_ne_nil
      (splitOnCharAux_ne_nil (stripSlashes p.path.toList) '/' [])
    have hsr' : splitOnChar '/' (stripSlashes p.path.toList) = s0 :: rest := hsr
    -- the first segment is everything before the first slash of the
    -- stripped path, hence non-empty
    have hhead := head?_splitOnCharAux (stripSlashes p.path.toList) '/' []
    rw [hsr] at hhead
    simp only [List.head?_cons, Option.some.injEq, List.reverse_nil,
      List.nil_append] at hhead
    have hs0 : s0 ≠ [] := by
      subst hhead
      obtain ⟨x, xs, hxx⟩ := List.exists_cons_of_ne_nil hstr
      have hx : x ≠ '/' := by
        apply stripSlashes_head_ne (l := p.path.toList)
        rw [hxx]
        rfl
      rw [hxx, List.takeWhile_cons]
      simp [hx]
    unfold extractFromParsed
    simp only [hyc, hbe, if_true, Bool.false_eq_true, if_false, hsr',
      pathSegmentsPy]
    simp [segOrNone, hs0]
  · intro hstr
    rw [hex]
    unfold extractFromParsed
    simp only [hyc, hbe, if_true, Bool.false_eq_true, if_false, hstr,
      splitOnChar, splitOnCharAux]
    rfl

/-- Witness for C4 at the claim's concrete input:
`https://youtu.be/xyz789` yields `xyz789`. -/
theorem youtu_be_extraction_witness :
    _extract_video_id_from_url "https://youtu.be/xyz789" = some "xyz789" := by
  have h := (youtu_be_extraction "https://youtu.be/xyz789"
      ⟨"https", "youtu.be", "/xyz789", "", "", ""⟩ rfl (by decide)
      (by decide)).1 (by decide)
  exact h

/-- The reconciled metadata record in Case A, written out. -/
theorem reconciledMeta_caseA (d m : List (String × PyVal))
    (hm : dget d "youtubeMetadata" = PyVal.dict m) :
    reconciledMeta d = PyVal.dict
      [("adId", pyOr (pyOr (dget m "adId") (optToVal (extractVal
          (pyOr (pyOr (dget m "youtubeUrl") (dget m "url")) (.str "")))))
          (.str "")),
       ("youtubeUrl", pyOr (pyOr (dget m "youtubeUrl") (dget m "url")) (.str "")),
       ("ctaUrl", pyOr (pyOr (dget m "ctaUrl") (dget m "cta")) (.str ""))] := by
  unfold reconciledMeta ensure_youtube_metadata
  rw [ensureGen_caseA extractVal d m hm, dget_dset_self]

/-- The reconciled metadata record in Case B, written out. -/
theorem reconciledMeta_caseB (d : List (String × PyVal))
    (hm : (dget d "youtubeMetadata").isDict = false) :
    reconciledMeta d = PyVal.dict
      [("adId", pyOr (optToVal (extractVal (pyOr (pyOr (pyOr
          (dget d "youtubeUrl") (dget d "videoUrl")) (dget d "url"))
          (.str "")))) (.str "")),
       ("youtubeUrl", pyOr (pyOr (pyOr (dget d "youtubeUrl")
          (dget d "videoUrl")) (dget d "url")) (.str "")),
       ("ctaUrl", pyOr (pyOr (dget d "ctaUrl") (dget d "cta")) (.str ""))] := by
  unfold reconciledMeta ensure_youtube_metadata
  rw [ensureGen_caseB extractVal d hm, dget_dset_self]

/-- Running the reconciler on a variation whose `youtubeMetadata` is already
a normalized three-field record changes nothing: the second pass re-reads
`adId`/`youtubeUrl`/`ctaUrl`, misses the legacy aliases, and re-derives the
same values.  `W`, `Y`, `Z` are the first-pass chains before the final `""`
default; the hypothesis states that whenever the first-pass `adId` chain was
falsy, so is the extractor's value on the resolved URL (true for both the
Case-A and the Case-B shape). -/
theorem ensureGen_on_normalized (ext : PyVal → Option String)
    (d : List (String × PyVal)) (W Y Z : PyVal)
    (hWe : W.truthy = false →
      (optToVal (ext (pyOr Y (.str "")))).truthy = false) :
    ensure_youtube_metadataGen ext
      (dset d "youtubeMetadata" (PyVal.dict
        [("adId", pyOr W (.str "")),
         ("youtubeUrl", pyOr Y (.str "")),
         ("ctaUrl", pyOr Z (.str ""))])) =
      dset d "youtubeMetadata" (PyVal.dict
        [("adId", pyOr W (.str "")),
         ("youtubeUrl", pyOr Y (.str "")),
         ("ctaUrl", pyOr Z (.str ""))]) := by
  have hm := dget_dset_self d "youtubeMetadata" (PyVal.dict
    [("adId", pyOr W (.str "")),
     ("youtubeUrl", pyOr Y (.str "")),
     ("ctaUrl", pyOr Z (.str ""))])
  rw [ensureGen_caseA ext _ _ hm]
  simp only [dget, String.reduceEq, if_false, if_pos]
  rw [pyOr_default_second_pass Y, pyOr_default_second_pass Z,
    pyOr_adid_second_pass W _ hWe, dset_dset_same]

/-- The reconciler is idempotent for an arbitrary extractor. -/
theorem ensure_idem_gen (ext : PyVal → Option String)
    (d : List (String × PyVal)) :
    ensure_youtube_metadataGen ext (ensure_youtube_metadataGen ext d) =
      ensure_youtube_metadataGen ext d := by
  rcases hmv : dget d "youtubeMetadata" with _ | s | n | b | m
  case dict =>
    rw [ensureGen_caseA ext d m hmv]
    exact ensureGen_on_normalized ext d
      (pyOr (dget m "adId") (optToVal (ext
        (pyOr (pyOr (dget m "youtubeUrl") (dget m "url")) (.str "")))))
      (pyOr (dget m "youtubeUrl") (dget m "url"))
      (pyOr (dget m "ctaUrl") (dget m "cta"))
      (fun hW => (pyOr_falsy_parts hW).2)
  all_goals {
    have hd : (dget d "youtubeMetadata").isDict = false := by
      rw [hmv]
      rfl
    rw [ensureGen_caseB ext d hd]
    exact ensureGen_on_normalized ext d
      (optToVal (ext (pyOr (pyOr (pyOr (dget d "youtubeUrl")
        (dget d "videoUrl")) (dget d "url")) (.str ""))))
      (pyOr (pyOr (dget d "youtubeUrl") (dget d "videoUrl")) (dget d "url"))
      (pyOr (dget d "ctaUrl") (dget d "cta"))
      (fun hW => hW)
  }

/-- C1 (counterexample): the claim that all three metadata values are
strings for *all* inputs fails when an existing field holds a truthy
non-string value — `{"youtubeMetadata": {"youtubeUrl": 42}}` reconciles to a
record whose `youtubeUrl` is still the integer `42`, which is not a string
(`x or y` returns the operand itself, with no coercion). -/
theorem meta_value_not_string_cex :
    metaEntry (reconciledMeta [("youtubeMetadata",
        PyVal.dict [("youtubeUrl", PyVal.int 42)])]) "youtubeUrl"
      = PyVal.int 42
  ∧ PyVal.isStr (metaEntry (reconciledMeta [("youtubeMetadata",
        PyVal.dict [("youtubeUrl", PyVal.int 42)])]) "youtubeUrl") = false :=
  ⟨rfl, rfl⟩

/-- C1 (amended): for every input variation the output's `youtubeMetadata`
is a dict with exactly the keys `adId`, `youtubeUrl`, `ctaUrl`, each bound
to a non-`None` value; the values are moreover all strings whenever every
field the reconciler consults on this input is a string or falsy (a truthy
non-string input value is passed through unchanged instead). -/
theorem reconciled_meta_shape (d : List (String × PyVal)) :
    wellShapedMeta (reconciledMeta d) = true
  ∧ (consultedStringish d = true → allStrMeta (reconciledMeta d) = true) := by
  rcases hmv : dget d "youtubeMetadata" with _ | s | n | b | m
  case dict =>
    rw [reconciledMeta_caseA d m hmv]
    constructor
    · simp [wellShapedMeta, pyOr_default_not_none]
    · intro hc
      simp only [consultedStringish, hmv, Bool.and_eq_true] at hc
      obtain ⟨⟨⟨⟨h1, h2⟩, h3⟩, h4⟩, h5⟩ := hc
      simp only [allStrMeta, List.all_cons, List.all_nil, Bool.and_eq_true,
        Bool.and_true]
      exact ⟨pyOr_default_isStr (strOrFalsy_pyOr h5 (strOrFalsy_optToVal _)),
        pyOr_default_isStr (strOrFalsy_pyOr h1 h2),
        pyOr_default_isStr (strOrFalsy_pyOr h3 h4)⟩
  all_goals {
    have hd : (dget d "youtubeMetadata").isDict = false := by
      rw [hmv]
      rfl
    rw [reconciledMeta_caseB d hd]
    constructor
    · simp [wellShapedMeta, pyOr_default_not_none]
    · intro hc
      simp only [consultedStringish, hmv, Bool.and_eq_true] at hc
      obtain ⟨⟨⟨⟨h1, h2⟩, h3⟩, h4⟩, h5⟩ := hc
      simp only [allStrMeta, List.all_cons, List.all_nil, Bool.and_eq_true,
        Bool.and_true]
      exact ⟨pyOr_default_isStr (strOrFalsy_optToVal _),
        pyOr_default_isStr (strOrFalsy_pyOr (strOrFalsy_pyOr h1 h2) h3),
        pyOr_default_isStr (strOrFalsy_pyOr h4 h5)⟩
  }

/-- Witness for C1 (amended) at the empty variation, whose consulted fields
are all absent. -/
theorem reconciled_meta_shape_witness :
    wellShapedMeta (reconciledMeta []) = true
  ∧ allStrMeta (reconciledMeta []) = true :=
  ⟨(reconciled_meta_shape []).1, (reconciled_meta_shape []).2 rfl⟩

/-- C5 (counterexample): the claimed precedence chain "explicit nested value
> explicit nested legacy alias > top-level alias chain > empty default" does
not fall through to the top level: when `youtubeMetadata` is a mapping
lacking both nested `youtubeUrl` and nested `url`, a non-empty top-level
`youtubeUrl` is ignored and the resolved `youtubeUrl` is the empty string. -/
theorem nested_meta_ignores_toplevel_cex :
    metaEntry (reconciledMeta [("youtubeMetadata", PyVal.dict []),
        ("youtubeUrl", PyVal.str "TOP")]) "youtubeUrl" = PyVal.str ""
  ∧ metaEntry (reconciledMeta [("youtubeMetadata", PyVal.dict []),
        ("youtubeUrl", PyVal.str "TOP")]) "youtubeUrl" ≠ PyVal.str "TOP" := by
  refine ⟨rfl, ?_⟩
  intro h
  have h0 : metaEntry (reconciledMeta [("youtubeMetadata", PyVal.dict []),
      ("youtubeUrl", PyVal.str "TOP")]) "youtubeUrl" = PyVal.str "" := rfl
  rw [h0] at h
  injection h with h'
  exact absurd h' (by decide)

/-- C5 (amended): resolution uses two disjoint precedence chains selected by
whether `youtubeMetadata` holds a mapping.  When it does, each field is
resolved from the nested mapping alone — explicit nested value, then nested
legacy alias (`url` / `cta`), then the empty-string default (with the
extractor fallback for `adId`) — and top-level fields are never consulted;
the top-level chain applies only in the other case. -/
theorem nested_resolution_chains (d m : List (String × PyVal))
    (hm : dget d "youtubeMetadata" = PyVal.dict m) :
    metaEntry (reconciledMeta d) "youtubeUrl" =
      pyOr (pyOr (dget m "youtubeUrl") (dget m "url")) (PyVal.str "")
  ∧ metaEntry (reconciledMeta d) "ctaUrl" =
      pyOr (pyOr (dget m "ctaUrl") (dget m "cta")) (PyVal.str "")
  ∧ metaEntry (reconciledMeta d) "adId" =
      pyOr (pyOr (dget m "adId") (optToVal (extractVal
        (pyOr (pyOr (dget m "youtubeUrl") (dget m "url")) (PyVal.str "")))))
        (PyVal.str "") := by
  rw [reconciledMeta_caseA d m hm]
  refine ⟨?_, ?_, ?_⟩ <;> simp [metaEntry, dget]

/-- Witness for C5 (amended): with nested metadata `{"url": "L"}` and
top-level `youtubeUrl = "TOP"`, the nested legacy alias wins and the
top-level value is ignored. -/
theorem nested_resolution_chains_witness :
    metaEntry (reconciledMeta [("youtubeMetadata",
        PyVal.dict [("url", PyVal.str "L")]),
        ("youtubeUrl", PyVal.str "TOP")]) "youtubeUrl" = PyVal.str "L" := by
  have h := (nested_resolution_chains
    [("youtubeMetadata", PyVal.dict [("url", PyVal.str "L")]),
     ("youtubeUrl", PyVal.str "TOP")]
    [("url", PyVal.str "L")] rfl).1
  exact h

/-- C6: an existing truthy nested `adId` is returned unchanged, and the
extractor is never consulted — the reconciler's output is the same for
every extractor function. -/
theorem existing_adId_trusted (d m : List (String × PyVal))
    (hm : dget d "youtubeMetadata" = PyVal.dict m)
    (ha : (dget m "adId").truthy = true) :
    metaEntry (reconciledMeta d) "adId" = dget m "adId"
  ∧ ∀ ext : PyVal → Option String,
      ensure_youtube_metadataGen ext d = ensure_youtube_metadata d := by
  constructor
  · rw [reconciledMeta_caseA d m hm]
    simp only [metaEntry, dget, String.reduceEq, if_false, if_pos]
    rw [pyOr_truthy _ ha, pyOr_truthy _ ha]
  · intro ext
    unfold ensure_youtube_metadata
    rw [ensureGen_caseA ext d m hm, ensureGen_caseA extractVal d m hm,
      pyOr_truthy _ ha, pyOr_truthy _ ha, pyOr_truthy _ ha, pyOr_truthy _ ha]

/-- Witness for C6 at the spec's concrete input: `adId = "keep-me"` survives
and even an adversarial extractor that always returns `"hijacked"` does not
change the result. -/
theorem existing_adId_trusted_witness :
    metaEntry (reconciledMeta [("youtubeMetadata", PyVal.dict
      [("adId", PyVal.str "keep-me"),
       ("youtubeUrl", PyVal.str "https://youtu.be/other")])]) "adId"
      = PyVal.str "keep-me"
  ∧ ensure_youtube_metadataGen (fun _ => some "hijacked")
      [("youtubeMetadata", PyVal.dict
        [("adId", PyVal.str "keep-me"),
         ("youtubeUrl", PyVal.str "https://youtu.be/other")])]
      = ensure_youtube_metadata
        [("youtubeMetadata", PyVal.dict
          [("adId", PyVal.str "keep-me"),
           ("youtubeUrl", PyVal.str "https://youtu.be/other")])] := by
  have h := existing_adId_trusted
    [("youtubeMetadata", PyVal.dict
      [("adId", PyVal.str "keep-me"),
       ("youtubeUrl", PyVal.str "https://youtu.be/other")])]
    [("adId", PyVal.str "keep-me"),
     ("youtubeUrl", PyVal.str "https://youtu.be/other")]
    rfl (by decide)
  exact ⟨h.1, h.2 _⟩

/-- C7: without nested structured metadata, the resolved `youtubeUrl`
follows the top-level alias chain `youtubeUrl`, then `videoUrl`, then
`url`, then the empty string. -/
theorem toplevel_url_alias_chain (d : List (String × PyVal))
    (hm : (dget d "youtubeMetadata").isDict = false) :
    metaEntry (reconciledMeta d) "youtubeUrl" =
      pyOr (pyOr (pyOr (dget d "youtubeUrl") (dget d "videoUrl"))
        (dget d "url")) (PyVal.str "") := by
  rw [reconciledMeta_caseB d hm]
  simp [metaEntry, dget]

/-- Witness for C7 at the spec's concrete input: top-level
`youtubeUrl="A"`, `videoUrl="B"` resolves to `"A"`. -/
theorem toplevel_url_alias_chain_witness :
    metaEntry (reconciledMeta [("youtubeUrl", PyVal.str "A"),
      ("videoUrl", PyVal.str "B")]) "youtubeUrl" = PyVal.str "A" := by
  have h := toplevel_url_alias_chain
    [("youtubeUrl", PyVal.str "A"), ("videoUrl", PyVal.str "B")] rfl
  exact h

/-- C8: the reconciler is idempotent — reconciling an already reconciled
variation yields the identical variation (same keys, same order, same
values). -/
theorem reconcile_idempotent (d : List (String × PyVal)) :
    ensure_youtube_metadata (ensure_youtube_metadata d) =
      ensure_youtube_metadata d :=
  ensure_idem_gen extractVal d

/-- C9: the reconciler only replaces the `youtubeMetadata` binding — the
result is literally the input with that one key rebound (so every other key
keeps its position and its very value), and looking up any other key in the
output gives the input's value.  (The in-place non-mutation of the Python
original is the `dict(variation)` shallow copy on line 51; in this pure
embedding the input value is untouched by construction.) -/
theorem reconcile_preserves_other_keys (d : List (String × PyVal)) :
    (∃ m, ensure_youtube_metadata d =
        dset d "youtubeMetadata" (PyVal.dict m))
  ∧ ∀ k : String, k ≠ "youtubeMetadata" →
      dget (ensure_youtube_metadata d) k = dget d k := by
  have hform : ∃ m, ensure_youtube_metadata d =
      dset d "youtubeMetadata" (PyVal.dict m) := by
    rcases hmv : dget d "youtubeMetadata" with _ | s | n | b | m
    case dict =>
      exact ⟨_, ensureGen_caseA extractVal d m hmv⟩
    all_goals {
      have hd : (dget d "youtubeMetadata").isDict = false := by
        rw [hmv]
        rfl
      exact ⟨_, ensureGen_caseB extractVal d hd⟩
    }
  refine ⟨hform, ?_⟩
  intro k hk
  obtain ⟨m, hm⟩ := hform
  rw [hm]
  exact dget_dset_other d "youtubeMetadata" k _ (Ne.symm hk)

/-- Witness for C9: an unrelated key survives reconciliation unchanged. -/
theorem reconcile_preserves_other_keys_witness :
    dget (ensure_youtube_metadata [("campaign", PyVal.int 7)]) "campaign"
      = PyVal.int 7 := by
  have h := (reconcile_preserves_other_keys [("campaign", PyVal.int 7)]).2
    "campaign" (by decide)
  rw [h]
  rfl

/-- C10: a present-but-falsy field (empty string, `None`, `False`, `0`) is
skipped in every fallback chain — `x or y` returns `y` whenever `x` is
falsy; in particular a falsy top-level `youtubeUrl` falls through to
`videoUrl`/`url` in Case B, and a falsy nested `ctaUrl` falls through to
the `cta` alias in Case A. -/
theorem falsy_fields_skipped :
    (∀ x y : PyVal, x.truthy = false → pyOr x y = y)
  ∧ (∀ d : List (String × PyVal),
      (dget d "youtubeMetadata").isDict = false →
      (dget d "youtubeUrl").truthy = false →
      metaEntry (reconciledMeta d) "youtubeUrl" =
        pyOr (pyOr (dget d "videoUrl") (dget d "url")) (PyVal.str ""))
  ∧ (∀ d m : List (String × PyVal),
      dget d "youtubeMetadata" = PyVal.dict m →
      (dget m "ctaUrl").truthy = false →
      metaEntry (reconciledMeta d) "ctaUrl" =
        pyOr (dget m "cta") (PyVal.str "")) := by
  refine ⟨fun x y hx => pyOr_falsy y hx, ?_, ?_⟩
  · intro d hd hu
    rw [reconciledMeta_caseB d hd]
    simp only [metaEntry, dget, String.reduceEq, if_false, if_pos]
    rw [pyOr_falsy _ hu]
  · intro d m hm hc
    rw [reconciledMeta_caseA d m hm]
    simp only [metaEntry, dget, String.reduceEq, if_false, if_pos]
    rw [pyOr_falsy _ hc]

/-- Witness for C10 at the claim's two concrete inputs: top-level
`youtubeUrl=""` falls through to `videoUrl="B"`, and nested `ctaUrl=None`
falls through to `cta="C"`. -/
theorem falsy_fields_skipped_witness :
    metaEntry (reconciledMeta [("youtubeUrl", PyVal.str ""),
      ("videoUrl", PyVal.str "B")]) "youtubeUrl" = PyVal.str "B"
  ∧ metaEntry (reconciledMeta [("youtubeMetadata", PyVal.dict
      [("ctaUrl", PyVal.none), ("cta", PyVal.str "C")])]) "ctaUrl"
      = PyVal.str "C" := by
  constructor
  · exact falsy_fields_skipped.2.1
      [("youtubeUrl", PyVal.str ""), ("videoUrl", PyVal.str "B")] rfl rfl
  · exact falsy_fields_skipped.2.2
      [("youtubeMetadata", PyVal.dict
        [("ctaUrl", PyVal.none), ("cta", PyVal.str "C")])]
      [("ctaUrl", PyVal.none), ("cta", PyVal.str "C")] rfl rfl
